import Mathlib

/-!
Verification of the next-ops incident-management and feature-flag core.

The definitions below are shallow embeddings of the TypeScript source:
pure functions become Lean functions, the relational store becomes an
explicit record of row lists, and each HTTP handler or server action
becomes a function from the store (and a request) to the new store and a
response value.  Machine integers are `Nat` with explicit `% 2 ^ w` where
the source relies on 32-bit wrap-around.
-/

namespace NextOps

/-! ### SHA-256 (the `crypto.createHash("sha256")` library call)

`stableHash` in `lib/feature-flags.ts` hashes `userId + ":" + flagKey`
with SHA-256 and post-processes the hex digest.  The library hash is
embedded here as the standard FIPS 180-4 algorithm over byte lists. -/

def add32 (a b : Nat) : Nat := (a + b) % 4294967296

def rotr (n x : Nat) : Nat := (x / 2 ^ n + x % 2 ^ n * 2 ^ (32 - n)) % 4294967296

def shr (n x : Nat) : Nat := x / 2 ^ n

def bnot32 (x : Nat) : Nat := Nat.xor x 4294967295

def ch (x y z : Nat) : Nat := Nat.xor (Nat.land x y) (Nat.land (bnot32 x) z)

def maj (x y z : Nat) : Nat := Nat.xor (Nat.xor (Nat.land x y) (Nat.land x z)) (Nat.land y z)

def bsig0 (x : Nat) : Nat := Nat.xor (Nat.xor (rotr 2 x) (rotr 13 x)) (rotr 22 x)

def bsig1 (x : Nat) : Nat := Nat.xor (Nat.xor (rotr 6 x) (rotr 11 x)) (rotr 25 x)

def ssig0 (x : Nat) : Nat := Nat.xor (Nat.xor (rotr 7 x) (rotr 18 x)) (shr 3 x)

def ssig1 (x : Nat) : Nat := Nat.xor (Nat.xor (rotr 17 x) (rotr 19 x)) (shr 10 x)

/-- The 64 SHA-256 round constants, written in decimal. -/
def sha256K : List Nat :=
  [1116352408, 1899447441, 3049323471, 3921009573,
   961987163, 1508970993, 2453635748, 2870763221,
   3624381080, 310598401, 607225278, 1426881987,
   1925078388, 2162078206, 2614888103, 3248222580,
   3835390401, 4022224774, 264347078, 604807628,
   770255983, 1249150122, 1555081692, 1996064986,
   2554220882, 2821834349, 2952996808, 3210313671,
   3336571891, 3584528711, 113926993, 338241895,
   666307205, 773529912, 1294757372, 1396182291,
   1695183700, 1986661051, 2177026350, 2456956037,
   2730485921, 2820302411, 3259730800, 3345764771,
   3516065817, 3600352804, 4094571909, 275423344,
   430227734, 506948616, 659060556, 883997877,
   958139571, 1322822218, 1537002063, 1747873779,
   1955562222, 2024104815, 2227730452, 2361852424,
   2428436474, 2756734187, 3204031479, 3329325298]

/-- The eight SHA-256 initial hash words, written in decimal. -/
def sha256H0 : List Nat :=
  [1779033703, 3144134277, 1013904242, 2773480762,
   1359893119, 2600822924, 528734635, 1541459225]

def bigEndian8 (n : Nat) : List Nat :=
  [n / 2 ^ 56 % 256, n / 2 ^ 48 % 256, n / 2 ^ 40 % 256, n / 2 ^ 32 % 256,
   n / 2 ^ 24 % 256, n / 2 ^ 16 % 256, n / 2 ^ 8 % 256, n % 256]

def padMessage (msg : List Nat) : List Nat :=
  msg ++ [128] ++ List.replicate ((119 - msg.length % 64) % 64) 0 ++
    bigEndian8 (msg.length * 8)

def toBlocks (l : List Nat) : List (List Nat) :=
  (List.range ((l.length + 63) / 64)).map (fun i => (l.drop (64 * i)).take 64)

def wordAt (bs : List Nat) (i : Nat) : Nat :=
  bs.getD (4 * i) 0 * 16777216 + bs.getD (4 * i + 1) 0 * 65536 +
    bs.getD (4 * i + 2) 0 * 256 + bs.getD (4 * i + 3) 0

def schedule (block : List Nat) : Array Nat :=
  let w0 : Array Nat := Array.ofFn (fun i : Fin 16 => wordAt block i.val)
  (List.range 48).foldl (fun w t =>
    let i := t + 16
    w.push (add32 (add32 (ssig1 ((w.get? (i - 2)).getD 0)) ((w.get? (i - 7)).getD 0))
      (add32 (ssig0 ((w.get? (i - 15)).getD 0)) ((w.get? (i - 16)).getD 0)))) w0

def roundFn (w : Array Nat) (s : List Nat) (t : Nat) : List Nat :=
  let a := s.getD 0 0
  let b := s.getD 1 0
  let c := s.getD 2 0
  let d := s.getD 3 0
  let e := s.getD 4 0
  let f := s.getD 5 0
  let g := s.getD 6 0
  let h := s.getD 7 0
  let t1 := add32 (add32 (add32 h (bsig1 e)) (add32 (ch e f g) (sha256K.getD t 0)))
    ((w.get? t).getD 0)
  let t2 := add32 (bsig0 a) (maj a b c)
  [add32 t1 t2, a, b, c, add32 d t1, e, f, g]

def compressBlock (state : List Nat) (block : List Nat) : List Nat :=
  let w := schedule block
  let final := (List.range 64).foldl (roundFn w) state
  List.zipWith add32 state final

def wordBytes (x : Nat) : List Nat :=
  [x / 16777216 % 256, x / 65536 % 256, x / 256 % 256, x % 256]

def sha256 (msg : List Nat) : List Nat :=
  ((toBlocks (padMessage msg)).foldl compressBlock sha256H0).bind wordBytes

/-- Standard UTF-8 encoding of a character (RFC 3629). -/
def utf8EncodeChar (c : Char) : List Nat :=
  let n := c.toNat
  if n < 0x80 then [n]
  else if n < 0x800 then [0xC0 + n / 64, 0x80 + n % 64]
  else if n < 0x10000 then [0xE0 + n / 4096, 0x80 + n / 64 % 64, 0x80 + n % 64]
  else [0xF0 + n / 262144, 0x80 + n / 4096 % 64, 0x80 + n / 64 % 64, 0x80 + n % 64]

def utf8Bytes (s : String) : List Nat := s.data.bind utf8EncodeChar

/-! ### `stableHash` (lib/feature-flags.ts)

The source computes `parseInt(hexDigest.substring(0, 8), 16) % 100`.
We embed the hex digest and `parseInt(_, 16)` directly. -/

def hexDigitChar (n : Nat) : Char :=
  if n < 10 then Char.ofNat (48 + n) else Char.ofNat (87 + n)

def byteToHex (b : Nat) : List Char := [hexDigitChar (b / 16 % 16), hexDigitChar (b % 16)]

def hexDigest (bytes : List Nat) : List Char := bytes.bind byteToHex

def hexDigitVal (c : Char) : Nat := if c.toNat ≥ 97 then c.toNat - 87 else c.toNat - 48

def parseHex (cs : List Char) : Nat := cs.foldl (fun acc c => acc * 16 + hexDigitVal c) 0

/-- Embedding of `stableHash` from lib/feature-flags.ts: first 8 hex
characters of the SHA-256 hex digest of `userId + ":" + flagKey`, parsed
base 16, modulo 100. -/
def stableHash (userId flagKey : String) : Nat :=
  parseHex ((hexDigest (sha256 (utf8Bytes (userId ++ ":" ++ flagKey)))).take 8) % 100

/-- The big-endian integer value of a byte string. -/
def digestNat (bytes : List Nat) : Nat := bytes.foldl (fun acc b => acc * 256 + b) 0

/-- The spec's wording for the stable hash: the first 32 bits of the
SHA-256 digest of the UTF-8 bytes of `userId + ":" + flagKey`,
interpreted as an unsigned integer, taken modulo 100.  Stated over the
same digest for comparison with the source's `stableHash`. -/
def stableHashSpec (userId flagKey : String) : Nat :=
  digestNat (sha256 (utf8Bytes (userId ++ ":" ++ flagKey))) / 2 ^ 224 % 100

/-! #### Digest structure lemmas -/

theorem hexRoundTrip : ∀ n < 16, hexDigitVal (hexDigitChar n) = n := by decide

theorem hexDigest_take (bs : List Nat) (n : Nat) :
    (hexDigest bs).take (2 * n) = hexDigest (bs.take n) := by
  induction bs generalizing n with
  | nil => simp [hexDigest]
  | cons b rest ih =>
    cases n with
    | zero => simp [hexDigest]
    | succ m =>
      have h2 : 2 * (m + 1) = (2 * m) + 1 + 1 := by ring
      simp only [hexDigest, List.cons_bind, byteToHex, List.take_succ_cons, h2,
        List.cons_append, List.take_cons_succ, List.nil_append]
      simpa [hexDigest] using ih m

theorem foldl_hex (bs : List Nat) (acc : Nat) (h : ∀ b ∈ bs, b < 256) :
    (hexDigest bs).foldl (fun a c => a * 16 + hexDigitVal c) acc =
      bs.foldl (fun a b => a * 256 + b) acc := by
  induction bs generalizing acc with
  | nil => simp [hexDigest]
  | cons b rest ih =>
    have hb : b < 256 := h b (List.mem_cons_self b rest)
    have hhi : hexDigitVal (hexDigitChar (b / 16 % 16)) = b / 16 % 16 :=
      hexRoundTrip _ (Nat.mod_lt _ (by norm_num))
    have hlo : hexDigitVal (hexDigitChar (b % 16)) = b % 16 :=
      hexRoundTrip _ (Nat.mod_lt _ (by norm_num))
    have hdiv : b / 16 < 16 := Nat.div_lt_of_lt_mul (by omega)
    have hmod : b / 16 % 16 = b / 16 := Nat.mod_eq_of_lt hdiv
    have hsplit : 16 * (b / 16) + b % 16 = b := Nat.div_add_mod b 16
    simp only [hexDigest, List.cons_bind, byteToHex, List.cons_append, List.nil_append,
      List.foldl_cons]
    rw [hhi, hlo, hmod]
    have harith : (acc * 16 + b / 16) * 16 + b % 16 = acc * 256 + b := by omega
    rw [harith]
    exact ih (acc * 256 + b) (fun x hx => h x (List.mem_cons_of_mem b hx))

theorem parseHex_hexDigest (bs : List Nat) (h : ∀ b ∈ bs, b < 256) :
    parseHex (hexDigest bs) = digestNat bs :=
  foldl_hex bs 0 h

theorem digestNat_foldl (l : List Nat) (acc : Nat) :
    l.foldl (fun a b => a * 256 + b) acc = acc * 256 ^ l.length + digestNat l := by
  induction l generalizing acc with
  | nil => simp [digestNat]
  | cons b rest ih =>
    simp only [List.foldl_cons, List.length_cons]
    rw [ih (acc * 256 + b)]
    have : digestNat (b :: rest) = b * 256 ^ rest.length + digestNat rest := by
      simp only [digestNat, List.foldl_cons]
      simpa using ih b
    rw [this]
    ring

theorem digestNat_append (xs ys : List Nat) :
    digestNat (xs ++ ys) = digestNat xs * 256 ^ ys.length + digestNat ys := by
  simp only [digestNat, List.foldl_append]
  exact digestNat_foldl ys _

theorem digestNat_lt (bs : List Nat) (h : ∀ b ∈ bs, b < 256) :
    digestNat bs < 256 ^ bs.length := by
  have key : ∀ (l : List Nat), (∀ b ∈ l, b < 256) → ∀ acc,
      l.foldl (fun a b => a * 256 + b) acc < (acc + 1) * 256 ^ l.length := by
    intro l
    induction l with
    | nil => intro _ acc; simp
    | cons b rest ih =>
      intro hl acc
      have hb : b < 256 := hl b (List.mem_cons_self b rest)
      simp only [List.foldl_cons, List.length_cons]
      have step := ih (fun x hx => hl x (List.mem_cons_of_mem b hx)) (acc * 256 + b)
      calc List.foldl (fun a b => a * 256 + b) (acc * 256 + b) rest
          < (acc * 256 + b + 1) * 256 ^ rest.length := step
        _ ≤ (acc + 1) * 256 ^ (rest.length + 1) := by
            have : acc * 256 + b + 1 ≤ (acc + 1) * 256 := by omega
            calc (acc * 256 + b + 1) * 256 ^ rest.length
                ≤ (acc + 1) * 256 * 256 ^ rest.length :=
                  Nat.mul_le_mul_right _ this
              _ = (acc + 1) * 256 ^ (rest.length + 1) := by ring
  have := key bs h 0
  simpa [digestNat] using this

theorem roundFn_length (w : Array Nat) (s : List Nat) (t : Nat) :
    (roundFn w s t).length = 8 := rfl

theorem foldl_roundFn_length (w : Array Nat) (l : List Nat) (s : List Nat)
    (h : l ≠ []) : (l.foldl (roundFn w) s).length = 8 := by
  induction l generalizing s with
  | nil => exact absurd rfl h
  | cons t ts ih =>
    cases ts with
    | nil => simp [roundFn]
    | cons t' ts' =>
      simp only [List.foldl_cons]
      exact ih _ (by simp)

theorem compressBlock_length (s block : List Nat) (h : s.length = 8) :
    (compressBlock s block).length = 8 := by
  unfold compressBlock
  rw [List.length_zipWith, foldl_roundFn_length _ _ _ (by simp [List.range_eq_nil])]
  omega

theorem foldl_compressBlock_length (blocks : List (List Nat)) (s : List Nat)
    (h : s.length = 8) : (blocks.foldl compressBlock s).length = 8 := by
  induction blocks generalizing s with
  | nil => simpa using h
  | cons b bs ih => exact ih _ (compressBlock_length s b h)

theorem bind_wordBytes_length (l : List Nat) :
    (l.bind wordBytes).length = 4 * l.length := by
  induction l with
  | nil => simp
  | cons x xs ih =>
    simp only [List.flatMap_cons, List.length_append, List.length_cons, ih]
    simp [wordBytes]
    omega

theorem sha256_length (msg : List Nat) : (sha256 msg).length = 32 := by
  unfold sha256
  rw [bind_wordBytes_length, foldl_compressBlock_length _ _ (by rfl)]

theorem sha256_bytes_lt (msg : List Nat) : ∀ b ∈ sha256 msg, b < 256 := by
  intro b hb
  unfold sha256 at hb
  rw [List.mem_flatMap] at hb
  obtain ⟨w, _, hw⟩ := hb
  simp only [wordBytes, List.mem_cons, List.not_mem_nil, or_false] at hw
  rcases hw with h | h | h | h <;> (subst h; exact Nat.mod_lt _ (by norm_num))

/-- C5: `stableHash(u, k)` equals the first 32 bits of the SHA-256 digest of
the UTF-8 bytes of `u ++ ":" ++ k` interpreted as an unsigned integer modulo
100; it is deterministic and always lies in `[0, 100)`. -/
theorem stableHash_correct (u k : String) :
    stableHash u k = stableHashSpec u k ∧
    stableHash u k = stableHash u k ∧
    stableHash u k < 100 := by
  refine ⟨?_, rfl, Nat.mod_lt _ (by norm_num)⟩
  set bs := sha256 (utf8Bytes (u ++ ":" ++ k)) with hbs
  have hlen : bs.length = 32 := sha256_length _
  have hlt : ∀ b ∈ bs, b < 256 := sha256_bytes_lt _
  have htake : (hexDigest bs).take 8 = hexDigest (bs.take 4) := by
    have := hexDigest_take bs 4
    simpa using this
  have hparse : parseHex (hexDigest (bs.take 4)) = digestNat (bs.take 4) :=
    parseHex_hexDigest _ (fun b hb => hlt b (List.mem_of_mem_take hb))
  have hsplit : bs = bs.take 4 ++ bs.drop 4 := (List.take_append_drop 4 bs).symm
  have hdroplen : (bs.drop 4).length = 28 := by simp [hlen]
  have hdig : digestNat bs = digestNat (bs.take 4) * 2 ^ 224 + digestNat (bs.drop 4) := by
    conv_lhs => rw [hsplit]
    rw [digestNat_append, hdroplen]
    norm_num
  have hdroplt : digestNat (bs.drop 4) < 2 ^ 224 := by
    have := digestNat_lt (bs.drop 4) (fun b hb => hlt b (List.mem_of_mem_drop hb))
    rw [hdroplen] at this
    calc digestNat (bs.drop 4) < 256 ^ 28 := this
      _ = 2 ^ 224 := by norm_num
  have hdiv : digestNat bs / 2 ^ 224 = digestNat (bs.take 4) := by
    rw [hdig, Nat.add_comm, Nat.add_mul_div_right _ _ (pow_pos (by norm_num : (0:ℕ) < 2) 224),
      Nat.div_eq_of_lt hdroplt, Nat.zero_add]
  unfold stableHash stableHashSpec
  rw [← hbs, htake, hparse, hdiv]

/-! ### JSON values and the rule grammar (lib/feature-flags.ts)

Stored rule conditions are dynamic JSON.  `ruleSchema` is a zod
discriminated union on the `type` field; numbers are embedded as
rationals (the exotic float corner cases play no role here). -/

inductive Json where
  | null
  | bool (b : Bool)
  | num (q : ℚ)
  | str (s : String)
  | arr (items : List Json)
  | obj (fields : List (String × Json))

/-- Object field access (zod reads fields by name; unknown keys are ignored). -/
def getField (fields : List (String × Json)) (key : String) : Option Json :=
  (fields.find? (fun p => p.1 == key)).map (fun p => p.2)

/-- The parsed form of `ruleSchema`: the four rule variants of
lib/feature-flags.ts. -/
inductive Rule where
  | allowlist (userIds : List String)
  | percentRollout (percentage : ℚ)
  | and (rules : List Rule)
  | or (rules : List Rule)

/-- `z.array(z.string())`: every element must be a string. -/
def parseStrings : List Json → Option (List String)
  | [] => some []
  | .str s :: rest => (parseStrings rest).map (fun l => s :: l)
  | _ :: _ => none

def parseRuleListWith (p : Json → Option Rule) : List Json → Option (List Rule)
  | [] => some []
  | j :: rest =>
    match p j with
    | none => none
    | some r =>
      match parseRuleListWith p rest with
      | none => none
      | some rs => some (r :: rs)

/-- Fuel-indexed embedding of `ruleSchema.parse`: a discriminated union on
`type` with `userIds : string[]`, `percentage : number ∈ [0, 100]` (no
integrality constraint in the source) and recursive `rules` arrays (no
depth bound in the source).  The fuel only serves the Lean termination
argument; `parseRule` below always supplies enough. -/
def parseRuleF : Nat → Json → Option Rule
  | 0, _ => none
  | fuel + 1, j =>
    match j with
    | .obj fields =>
      match getField fields "type" with
      | some (.str t) =>
        if t = "ALLOWLIST" then
          match getField fields "userIds" with
          | some (.arr items) => (parseStrings items).map Rule.allowlist
          | _ => none
        else if t = "PERCENT_ROLLOUT" then
          match getField fields "percentage" with
          | some (.num q) => if 0 ≤ q ∧ q ≤ 100 then some (Rule.percentRollout q) else none
          | _ => none
        else if t = "AND" then
          match getField fields "rules" with
          | some (.arr items) => (parseRuleListWith (parseRuleF fuel) items).map Rule.and
          | _ => none
        else if t = "OR" then
          match getField fields "rules" with
          | some (.arr items) => (parseRuleListWith (parseRuleF fuel) items).map Rule.or
          | _ => none
        else none
      | _ => none
    | _ => none

mutual
/-- Structural size of a JSON value (used as parser fuel: it always
dominates the nesting depth). -/
def jsonSize : Json → Nat
  | .null | .bool _ | .num _ | .str _ => 1
  | .arr items => 1 + jsonListSize items
  | .obj fields => 1 + jsonFieldsSize fields
def jsonListSize : List Json → Nat
  | [] => 0
  | j :: rest => 1 + jsonSize j + jsonListSize rest
def jsonFieldsSize : List (String × Json) → Nat
  | [] => 0
  | f :: rest => 1 + jsonSize f.2 + jsonFieldsSize rest
end

/-- Embedding of `ruleSchema.parse` (total thanks to the size-based fuel). -/
def parseRule (j : Json) : Option Rule := parseRuleF (jsonSize j) j

/-- Embedding of `validateRule` from lib/feature-flags.ts: try
`ruleSchema.parse`, return whether it succeeded (the zod error message is
abstracted away). -/
def validateRule (condition : Json) : Bool := (parseRule condition).isSome

/-! ### Flag evaluation (lib/feature-flags.ts) -/

structure EvaluationContext where
  userId : String
  environment : String
  service : Option String := none

/-- Trace entries carry the data the source interpolates into its
human-readable trace strings. -/
inductive TraceEntry where
  | allowlist (userId : String) (result : Bool) (userIds : List String)
  | percentRollout (userId : String) (bucket : Nat) (threshold : ℚ) (result : Bool)
  | andHeader (n : Nat)
  | andFooter (result : Bool)
  | orHeader (n : Nat)
  | orFooter (result : Bool)
  | globallyDisabled (key : String)
  | envMismatch (flagEnv ctxEnv : String)
  | enabledForEnv (key env : String)
  | noRulesDefined
  | evaluatingRules (n : Nat)
  | ruleHeader (n : Nat)
  | parseFailure (n : Nat)
  | noRulesMatched
deriving DecidableEq

structure EvaluationResult where
  enabled : Bool
  reason : String
  trace : List TraceEntry
deriving DecidableEq

mutual
/-- Embedding of `evaluateRule`: the trace is threaded in the order the
source pushes entries; `AND`/`OR` evaluate every child (the source uses
`map` + `every`/`some`). -/
def evaluateRule (ctx : EvaluationContext) (flagKey : String) :
    Rule → List TraceEntry → Bool × List TraceEntry
  | .allowlist userIds, trace =>
      let result := userIds.contains ctx.userId
      (result, trace ++ [.allowlist ctx.userId result userIds])
  | .percentRollout p, trace =>
      let bucket := stableHash ctx.userId flagKey
      let result := decide ((bucket : ℚ) < p)
      (result, trace ++ [.percentRollout ctx.userId bucket p result])
  | .and rules, trace =>
      let t0 := trace ++ [.andHeader rules.length]
      let res := evaluateRuleList ctx flagKey rules t0
      let result := res.1.all (fun b => b)
      (result, res.2 ++ [.andFooter result])
  | .or rules, trace =>
      let t0 := trace ++ [.orHeader rules.length]
      let res := evaluateRuleList ctx flagKey rules t0
      let result := res.1.any (fun b => b)
      (result, res.2 ++ [.orFooter result])
def evaluateRuleList (ctx : EvaluationContext) (flagKey : String) :
    List Rule → List TraceEntry → List Bool × List TraceEntry
  | [], trace => ([], trace)
  | r :: rs, trace =>
      let hd := evaluateRule ctx flagKey r trace
      let tl := evaluateRuleList ctx flagKey rs hd.2
      (hd.1 :: tl.1, tl.2)
end

mutual
/-- Trace-free matching semantics of a rule (the boolean the evaluator
computes). -/
def matchesRule (ctx : EvaluationContext) (flagKey : String) : Rule → Bool
  | .allowlist userIds => userIds.contains ctx.userId
  | .percentRollout p => decide ((stableHash ctx.userId flagKey : ℚ) < p)
  | .and rules => (matchesList ctx flagKey rules).all (fun b => b)
  | .or rules => (matchesList ctx flagKey rules).any (fun b => b)
def matchesList (ctx : EvaluationContext) (flagKey : String) : List Rule → List Bool
  | [] => []
  | r :: rs => matchesRule ctx flagKey r :: matchesList ctx flagKey rs
end

/-- A stored rule row as the evaluator receives it: just the JSON condition. -/
structure StoredRule where
  condition : Json

structure FlagData where
  key : String
  enabled : Bool
  environment : String
  rules : List StoredRule

/-- Whether a stored rule row matches: parse failures count as
non-matching (the source catches the parse exception and continues). -/
def rowMatches (ctx : EvaluationContext) (flagKey : String) (row : StoredRule) : Bool :=
  match parseRule row.condition with
  | some r => matchesRule ctx flagKey r
  | none => false

/-- The rule loop of `evaluateFeatureFlag` (`for` over `flag.rules` with
1-based rule numbers in messages). -/
def evalRulesLoop (ctx : EvaluationContext) (flagKey : String) :
    List StoredRule → Nat → List TraceEntry → EvaluationResult
  | [], _, trace =>
      ⟨false, "No rules matched", trace ++ [.noRulesMatched]⟩
  | row :: rest, i, trace =>
      let t0 := trace ++ [.ruleHeader (i + 1)]
      match parseRule row.condition with
      | some r =>
          let res := evaluateRule ctx flagKey r t0
          if res.1 then ⟨true, "Matched rule " ++ toString (i + 1), res.2⟩
          else evalRulesLoop ctx flagKey rest (i + 1) res.2
      | none => evalRulesLoop ctx flagKey rest (i + 1) (t0 ++ [.parseFailure (i + 1)])

/-- Embedding of `evaluateFeatureFlag` from lib/feature-flags.ts. -/
def evaluateFeatureFlag (flag : FlagData) (ctx : EvaluationContext) : EvaluationResult :=
  if !flag.enabled then
    ⟨false, "Flag is globally disabled", [.globallyDisabled flag.key]⟩
  else if flag.environment ≠ ctx.environment then
    ⟨false, "Environment mismatch: flag is for " ++ flag.environment ++ ", context is " ++
      ctx.environment, [.envMismatch flag.environment ctx.environment]⟩
  else
    let t0 : List TraceEntry := [.enabledForEnv flag.key flag.environment]
    if flag.rules.length = 0 then
      ⟨true, "No rules defined, enabled for all", t0 ++ [.noRulesDefined]⟩
    else
      evalRulesLoop ctx flag.key flag.rules 0 (t0 ++ [.evaluatingRules flag.rules.length])

/-! ### Evaluator lemmas -/

theorem evaluateRule_fst (ctx : EvaluationContext) (k : String) :
    ∀ r t, (evaluateRule ctx k r t).1 = matchesRule ctx k r := by
  intro r t
  apply evaluateRule.induct ctx k
    (fun r t => (evaluateRule ctx k r t).1 = matchesRule ctx k r)
    (fun rs t => (evaluateRuleList ctx k rs t).1 = matchesList ctx k rs)
  · intro userIds trace
    simp [evaluateRule, matchesRule]
  · intro p trace
    simp [evaluateRule, matchesRule]
  · intro rules trace t0 ih
    simp only [evaluateRule, matchesRule]
    rw [ih]
  · intro rules trace t0 ih
    simp only [evaluateRule, matchesRule]
    rw [ih]
  · intro trace
    simp [evaluateRuleList, matchesList]
  · intro r rs trace hd ih1 ih2
    simp only [evaluateRuleList, matchesList]
    rw [ih1, ih2]

theorem evaluateRule_trace_mono (ctx : EvaluationContext) (k : String) :
    ∀ r t, ∀ x ∈ t, x ∈ (evaluateRule ctx k r t).2 := by
  intro r t
  apply evaluateRule.induct ctx k
    (fun r t => ∀ x ∈ t, x ∈ (evaluateRule ctx k r t).2)
    (fun rs t => ∀ x ∈ t, x ∈ (evaluateRuleList ctx k rs t).2)
  · intro userIds trace x hx
    simp only [evaluateRule]
    exact List.mem_append_left _ hx
  · intro p trace x hx
    simp only [evaluateRule]
    exact List.mem_append_left _ hx
  · intro rules trace t0 ih x hx
    simp only [evaluateRule]
    exact List.mem_append_left _ (ih x (List.mem_append_left _ hx))
  · intro rules trace t0 ih x hx
    simp only [evaluateRule]
    exact List.mem_append_left _ (ih x (List.mem_append_left _ hx))
  · intro trace x hx
    simpa [evaluateRuleList] using hx
  · intro r rs trace hd ih1 ih2 x hx
    simp only [evaluateRuleList]
    exact ih2 x (ih1 x hx)

/-- First index (0-based) of a stored rule that parses and matches; the
spec's "first matching rule". -/
def firstMatchIdx (ctx : EvaluationContext) (k : String) : List StoredRule → Option Nat
  | [] => none
  | row :: rest =>
      if rowMatches ctx k row then some 0
      else (firstMatchIdx ctx k rest).map (fun n => n + 1)

theorem evalRulesLoop_enabled (ctx : EvaluationContext) (k : String) :
    ∀ rows i t, (evalRulesLoop ctx k rows i t).enabled = rows.any (rowMatches ctx k) := by
  intro rows
  induction rows with
  | nil => intro i t; simp [evalRulesLoop]
  | cons row rest ih =>
    intro i t
    simp only [evalRulesLoop, List.any_cons]
    cases hp : parseRule row.condition with
    | none => simp [rowMatches, hp, ih]
    | some r =>
      have hfst := evaluateRule_fst ctx k r (t ++ [.ruleHeader (i + 1)])
      by_cases hm : matchesRule ctx k r
      · simp [rowMatches, hp, hfst, hm]
      · simp only [rowMatches, hp]
        rw [if_neg (by simp [hfst, hm])]
        simp [ih, hm]

theorem evalRulesLoop_reason (ctx : EvaluationContext) (k : String) :
    ∀ rows i t, (evalRulesLoop ctx k rows i t).reason =
      (match firstMatchIdx ctx k rows with
       | some n => "Matched rule " ++ toString (i + n + 1)
       | none => "No rules matched") := by
  intro rows
  induction rows with
  | nil => intro i t; simp [evalRulesLoop, firstMatchIdx]
  | cons row rest ih =>
    intro i t
    simp only [evalRulesLoop, firstMatchIdx]
    cases hp : parseRule row.condition with
    | none =>
      have hrm : rowMatches ctx k row = false := by simp [rowMatches, hp]
      simp only [hrm, Bool.false_eq_true, if_false]
      rw [ih]
      cases hfi : firstMatchIdx ctx k rest with
      | none => simp
      | some n =>
        have harith : i + 1 + n + 1 = i + (n + 1) + 1 := by omega
        simp [harith]
    | some r =>
      have hfst := evaluateRule_fst ctx k r (t ++ [.ruleHeader (i + 1)])
      by_cases hm : matchesRule ctx k r
      · have hrm : rowMatches ctx k row = true := by simp [rowMatches, hp, hm]
        simp only [hrm, if_true]
        rw [if_pos (by simp [hfst, hm])]
      · have hrm : rowMatches ctx k row = false := by
          simp only [rowMatches, hp]
          simpa using hm
        simp only [hrm, Bool.false_eq_true, if_false]
        rw [if_neg (by simp [hfst, hm])]
        rw [ih]
        cases hfi : firstMatchIdx ctx k rest with
        | none => simp
        | some n =>
          have harith : i + 1 + n + 1 = i + (n + 1) + 1 := by omega
          simp [harith]

theorem evalRulesLoop_trace_mono (ctx : EvaluationContext) (k : String) :
    ∀ rows i t, ∀ x ∈ t, x ∈ (evalRulesLoop ctx k rows i t).trace := by
  intro rows
  induction rows with
  | nil => intro i t x hx; simp only [evalRulesLoop]; exact List.mem_append_left _ hx
  | cons row rest ih =>
    intro i t x hx
    simp only [evalRulesLoop]
    cases hp : parseRule row.condition with
    | none => exact ih (i + 1) _ x (List.mem_append_left _ (List.mem_append_left _ hx))
    | some r =>
      have hmem : x ∈ (evaluateRule ctx k r (t ++ [.ruleHeader (i + 1)])).2 :=
        evaluateRule_trace_mono ctx k r _ x (List.mem_append_left _ hx)
      by_cases hb : (evaluateRule ctx k r (t ++ [.ruleHeader (i + 1)])).1 = true
      · simp [hb, hmem]
      · simp only [Bool.not_eq_true] at hb
        simp only [hb, Bool.false_eq_true, if_false]
        exact ih (i + 1) _ x hmem

theorem evalRulesLoop_parseFailure (ctx : EvaluationContext) (k : String) :
    ∀ rows n i t row, rows.get? n = some row → parseRule row.condition = none →
      (∀ m < n, ∀ row', rows.get? m = some row' → rowMatches ctx k row' = false) →
      TraceEntry.parseFailure (i + n + 1) ∈ (evalRulesLoop ctx k rows i t).trace := by
  intro rows
  induction rows with
  | nil => intro n i t row h; simp at h
  | cons row0 rest ih =>
    intro n i t row hget hp hnomatch
    cases n with
    | zero =>
      simp only [List.get?_cons_zero, Option.some.injEq] at hget
      subst hget
      simp only [evalRulesLoop, hp]
      have : TraceEntry.parseFailure (i + 1) ∈
          (t ++ [TraceEntry.ruleHeader (i + 1)]) ++ [TraceEntry.parseFailure (i + 1)] := by
        simp
      have hmem := evalRulesLoop_trace_mono ctx k rest (i + 1) _ _ this
      simpa using hmem
    | succ m =>
      simp only [List.get?_cons_succ] at hget
      have hrm0 : rowMatches ctx k row0 = false :=
        hnomatch 0 (Nat.succ_pos m) row0 rfl
      have hrec : ∀ l < m, ∀ row', rest.get? l = some row' → rowMatches ctx k row' = false := by
        intro l hl row' hget'
        exact hnomatch (l + 1) (by omega) row' (by simpa using hget')
      have goal_eq : i + (m + 1) + 1 = (i + 1) + m + 1 := by omega
      cases hp0 : parseRule row0.condition with
      | none =>
        simp only [evalRulesLoop, hp0]
        rw [goal_eq]
        exact ih m (i + 1) _ row hget hp hrec
      | some r =>
        have hfst := evaluateRule_fst ctx k r (t ++ [.ruleHeader (i + 1)])
        have hm : matchesRule ctx k r = false := by
          simpa [rowMatches, hp0] using hrm0
        simp only [evalRulesLoop, hp0]
        rw [if_neg (by simp [hfst, hm])]
        rw [goal_eq]
        exact ih m (i + 1) _ row hget hp hrec

/-- Flag-level boolean characterization: enabled iff globally enabled,
environment matches, and (no rules or some stored rule matches). -/
theorem evaluateFeatureFlag_enabled_char (flag : FlagData) (ctx : EvaluationContext) :
    (evaluateFeatureFlag flag ctx).enabled =
      (flag.enabled && (flag.environment == ctx.environment) &&
        (flag.rules.isEmpty || flag.rules.any (rowMatches ctx flag.key))) := by
  unfold evaluateFeatureFlag
  cases he : flag.enabled with
  | false => simp
  | true =>
    simp only [Bool.not_true, Bool.false_eq_true, if_false, Bool.true_and]
    by_cases henv : flag.environment = ctx.environment
    · rw [if_neg (by simp [henv])]
      cases hr : flag.rules with
      | nil => simp [henv]
      | cons a l =>
        rw [if_neg (by simp)]
        rw [evalRulesLoop_enabled]
        simp [henv]
    · rw [if_pos henv]
      simp [henv]

theorem firstMatchIdx_isSome (ctx : EvaluationContext) (k : String) :
    ∀ rows, (firstMatchIdx ctx k rows).isSome = rows.any (rowMatches ctx k) := by
  intro rows
  induction rows with
  | nil => simp [firstMatchIdx]
  | cons b m ihm =>
    by_cases hb : rowMatches ctx k b
    · simp [firstMatchIdx, hb]
    · cases hfi : firstMatchIdx ctx k m with
      | none =>
        rw [hfi] at ihm
        simp [firstMatchIdx, hb, hfi, ← ihm]
      | some n =>
        rw [hfi] at ihm
        simp [firstMatchIdx, hb, hfi, ← ihm]

/-- The spec's evaluation order, written from §4.3's four numbered steps:
global kill switch, environment gate, empty-rules shortcut, then
first-match over the ordered rules. -/
def evaluateFlagSpecOrder (flag : FlagData) (ctx : EvaluationContext) : Bool × String :=
  if flag.enabled = false then (false, "Flag is globally disabled")
  else if flag.environment ≠ ctx.environment then
    (false, "Environment mismatch: flag is for " ++ flag.environment ++ ", context is " ++
      ctx.environment)
  else
    match flag.rules with
    | [] => (true, "No rules defined, enabled for all")
    | _ :: _ =>
      match firstMatchIdx ctx flag.key flag.rules with
      | some n => (true, "Matched rule " ++ toString (n + 1))
      | none => (false, "No rules matched")

/-- C6: `evaluateFeatureFlag` follows exactly the spec's order — disabled
flag, then environment mismatch, then empty rule list, then first-match in
rule order; an unparseable stored rule is treated as non-matching and a
parse-failure entry for it is recorded in the trace whenever the loop
reaches it. -/
theorem evaluateFeatureFlag_order (flag : FlagData) (ctx : EvaluationContext) :
    (evaluateFeatureFlag flag ctx).enabled = (evaluateFlagSpecOrder flag ctx).1 ∧
    (evaluateFeatureFlag flag ctx).reason = (evaluateFlagSpecOrder flag ctx).2 ∧
    (∀ n row, flag.enabled = true → flag.environment = ctx.environment →
      flag.rules.get? n = some row → parseRule row.condition = none →
      (∀ m < n, ∀ row', flag.rules.get? m = some row' →
        rowMatches ctx flag.key row' = false) →
      TraceEntry.parseFailure (n + 1) ∈ (evaluateFeatureFlag flag ctx).trace) := by
  refine ⟨?_, ?_, ?_⟩
  · rw [evaluateFeatureFlag_enabled_char]
    unfold evaluateFlagSpecOrder
    cases he : flag.enabled with
    | false => simp
    | true =>
      simp only [Bool.true_and, if_neg (by simp : ¬(true = false))]
      by_cases henv : flag.environment = ctx.environment
      · rw [if_neg (by simp [henv])]
        cases hr : flag.rules with
        | nil => simp [henv]
        | cons a l =>
          have hsome := firstMatchIdx_isSome ctx flag.key (a :: l)
          cases hfi : firstMatchIdx ctx flag.key (a :: l) with
          | some n =>
            rw [hfi] at hsome
            simp [henv, ← hsome]
          | none =>
            rw [hfi] at hsome
            simp [henv, ← hsome]
      · rw [if_pos henv]
        simp [henv]
  · unfold evaluateFeatureFlag evaluateFlagSpecOrder
    cases he : flag.enabled with
    | false => simp
    | true =>
      by_cases henv : flag.environment = ctx.environment
      · cases hr : flag.rules with
        | nil => simp [henv]
        | cons a l =>
          simp only [Bool.not_true, Bool.false_eq_true, if_false,
            if_neg (by simp : ¬(true = false)),
            if_neg (by simp [henv] : ¬(flag.environment ≠ ctx.environment)),
            if_neg (by simp : ¬((a :: l).length = 0))]
          rw [evalRulesLoop_reason]
          cases hfi : firstMatchIdx ctx flag.key (a :: l) with
          | some n => simp
          | none => simp
      · have hne : flag.environment ≠ ctx.environment := henv
        simp [hne]
  · intro n row he henv hget hp hnomatch
    unfold evaluateFeatureFlag
    have hlen : ¬ flag.rules.length = 0 := by
      intro hcon
      rw [List.length_eq_zero] at hcon
      rw [hcon] at hget
      simp at hget
    simp only [he, Bool.not_true, Bool.false_eq_true, if_false,
      if_neg (show ¬(flag.environment ≠ ctx.environment) from fun hc => hc henv),
      if_neg hlen]
    have := evalRulesLoop_parseFailure ctx flag.key flag.rules n 0
      ([TraceEntry.enabledForEnv flag.key flag.environment] ++
        [TraceEntry.evaluatingRules flag.rules.length]) row hget hp hnomatch
    simpa using this

/-! ### Write-time rule validation (claim C7)

`AcceptedCondition` restates, as a structural predicate, which conditions
the schema accepts: a `type` tag among the four variants, `userIds` an
array of strings, `percentage` a number in `[0, 100]`, and `AND`/`OR`
children each accepted (the empty list included); no depth bound. -/

inductive IsStringList : List Json → Prop
  | nil : IsStringList []
  | cons (s : String) {rest : List Json} :
      IsStringList rest → IsStringList (Json.str s :: rest)

mutual
inductive AcceptedCondition : Json → Prop
  | allowlist {fields : List (String × Json)} {items : List Json} :
      getField fields "type" = some (.str "ALLOWLIST") →
      getField fields "userIds" = some (.arr items) →
      IsStringList items →
      AcceptedCondition (.obj fields)
  | percent {fields : List (String × Json)} {q : ℚ} :
      getField fields "type" = some (.str "PERCENT_ROLLOUT") →
      getField fields "percentage" = some (.num q) →
      0 ≤ q → q ≤ 100 →
      AcceptedCondition (.obj fields)
  | andNode {fields : List (String × Json)} {items : List Json} :
      getField fields "type" = some (.str "AND") →
      getField fields "rules" = some (.arr items) →
      AcceptedList items →
      AcceptedCondition (.obj fields)
  | orNode {fields : List (String × Json)} {items : List Json} :
      getField fields "type" = some (.str "OR") →
      getField fields "rules" = some (.arr items) →
      AcceptedList items →
      AcceptedCondition (.obj fields)
inductive AcceptedList : List Json → Prop
  | nil : AcceptedList []
  | cons {j : Json} {rest : List Json} :
      AcceptedCondition j → AcceptedList rest → AcceptedList (j :: rest)
end

theorem parseStrings_isSome : ∀ items, (parseStrings items).isSome = true ↔ IsStringList items := by
  intro items
  induction items with
  | nil => simpa [parseStrings] using IsStringList.nil
  | cons j rest ih =>
    cases j with
    | str s =>
      constructor
      · intro h
        refine IsStringList.cons s (ih.mp ?_)
        simp only [parseStrings] at h
        cases hp : parseStrings rest with
        | none => simp [hp] at h
        | some l => simp
      · intro h
        cases h with
        | cons s hrest =>
          have := ih.mpr hrest
          simp only [parseStrings]
          cases hp : parseStrings rest with
          | none => simp [hp] at this
          | some l => simp [hp]
    | null =>
      constructor
      · intro h; simp [parseStrings] at h
      · intro h; cases h
    | bool b =>
      constructor
      · intro h; simp [parseStrings] at h
      · intro h; cases h
    | num q =>
      constructor
      · intro h; simp [parseStrings] at h
      · intro h; cases h
    | arr l =>
      constructor
      · intro h; simp [parseStrings] at h
      · intro h; cases h
    | obj f =>
      constructor
      · intro h; simp [parseStrings] at h
      · intro h; cases h

theorem parseRuleListWith_isSome (p : Json → Option Rule) :
    ∀ items, (parseRuleListWith p items).isSome = true ↔
      ∀ j ∈ items, (p j).isSome = true := by
  intro items
  induction items with
  | nil => simp [parseRuleListWith]
  | cons j rest ih =>
    simp only [parseRuleListWith]
    cases hj : p j with
    | none =>
      constructor
      · intro h; simp at h
      · intro hall
        have := hall j (List.mem_cons_self j rest)
        simp [hj] at this
    | some r =>
      cases hrest : parseRuleListWith p rest with
      | none =>
        constructor
        · intro h; simp at h
        · intro hall
          have hmem : ∀ x ∈ rest, (p x).isSome = true :=
            fun x hx => hall x (List.mem_cons_of_mem j hx)
          have hcon := ih.mpr hmem
          simp [hrest] at hcon
      | some rs =>
        constructor
        · intro _ x hx
          rcases List.mem_cons.mp hx with hx | hx
          · subst hx; simp [hj]
          · exact ih.mp (by simp [hrest]) x hx
        · intro _; rfl

theorem acceptedList_of_forall : ∀ items, (∀ j ∈ items, AcceptedCondition j) →
    AcceptedList items := by
  intro items
  induction items with
  | nil => intro _; exact AcceptedList.nil
  | cons j rest ih =>
    intro h
    exact AcceptedList.cons (h j (List.mem_cons_self j rest))
      (ih (fun x hx => h x (List.mem_cons_of_mem j hx)))

theorem parseRuleF_sound : ∀ fuel j, (parseRuleF fuel j).isSome = true → AcceptedCondition j := by
  intro fuel
  induction fuel with
  | zero => intro j h; simp [parseRuleF] at h
  | succ fuel ih =>
    intro j h
    cases j with
    | obj fields =>
      simp only [parseRuleF] at h
      split at h <;> try simp at h
      rename_i t ht
      by_cases hA : t = "ALLOWLIST"
      · subst hA
        rw [if_pos rfl] at h
        split at h <;> try simp at h
        rename_i items hu
        have hs : (parseStrings items).isSome = true := by
          cases hps : parseStrings items with
          | none => simp [hps] at h
          | some l => simp [hps]
        exact AcceptedCondition.allowlist ht hu ((parseStrings_isSome items).mp hs)
      · rw [if_neg hA] at h
        by_cases hP : t = "PERCENT_ROLLOUT"
        · subst hP
          rw [if_pos rfl] at h
          split at h <;> try simp at h
          rename_i q hq
          exact AcceptedCondition.percent ht hq h.1 h.2
        · rw [if_neg hP] at h
          by_cases hAnd : t = "AND"
          · subst hAnd
            rw [if_pos rfl] at h
            split at h <;> try simp at h
            rename_i items hr
            have hl : (parseRuleListWith (parseRuleF fuel) items).isSome = true := by
              cases hpl : parseRuleListWith (parseRuleF fuel) items with
              | none => simp [hpl] at h
              | some l => simp [hpl]
            have hall := (parseRuleListWith_isSome _ items).mp hl
            exact AcceptedCondition.andNode ht hr
              (acceptedList_of_forall items (fun x hx => ih x (hall x hx)))
          · rw [if_neg hAnd] at h
            by_cases hOr : t = "OR"
            · subst hOr
              rw [if_pos rfl] at h
              split at h <;> try simp at h
              rename_i items hr
              have hl : (parseRuleListWith (parseRuleF fuel) items).isSome = true := by
                cases hpl : parseRuleListWith (parseRuleF fuel) items with
                | none => simp [hpl] at h
                | some l => rfl
              have hall := (parseRuleListWith_isSome _ items).mp hl
              exact AcceptedCondition.orNode ht hr
                (acceptedList_of_forall items (fun x hx => ih x (hall x hx)))
            · rw [if_neg hOr] at h
              simp at h
    | null => simp [parseRuleF] at h
    | bool b => simp [parseRuleF] at h
    | num q => simp [parseRuleF] at h
    | str s => simp [parseRuleF] at h
    | arr l => simp [parseRuleF] at h

theorem mem_fields_size {fields : List (String × Json)} {p : String × Json}
    (h : p ∈ fields) : jsonSize p.2 < jsonFieldsSize fields := by
  induction fields with
  | nil => cases h
  | cons f rest ih =>
    rcases List.mem_cons.mp h with hp | hp
    · subst hp; simp only [jsonFieldsSize]; omega
    · have := ih hp; simp only [jsonFieldsSize]; omega

theorem getField_size {fields : List (String × Json)} {key : String} {v : Json}
    (h : getField fields key = some v) : jsonSize v < jsonSize (Json.obj fields) := by
  unfold getField at h
  cases hf : fields.find? (fun p => p.1 == key) with
  | none => rw [hf] at h; simp at h
  | some p =>
    rw [hf] at h
    simp only [Option.map_some', Option.some.injEq] at h
    have hmem := List.mem_of_find?_eq_some hf
    have hlt := mem_fields_size hmem
    rw [h] at hlt
    simp only [jsonSize]
    omega

theorem mem_items_size {items : List Json} {j : Json} (h : j ∈ items) :
    jsonSize j < jsonSize (Json.arr items) := by
  have : jsonSize j < jsonListSize items := by
    induction items with
    | nil => cases h
    | cons x rest ih =>
      rcases List.mem_cons.mp h with hp | hp
      · subst hp; simp only [jsonListSize]; omega
      · have := ih hp; simp only [jsonListSize]; omega
  simp only [jsonSize]
  omega

theorem parseRuleF_complete : ∀ j, AcceptedCondition j →
    ∀ fuel, jsonSize j ≤ fuel → (parseRuleF fuel j).isSome = true := by
  intro j h
  refine @AcceptedCondition.rec
    (fun j _ => ∀ fuel, jsonSize j ≤ fuel → (parseRuleF fuel j).isSome = true)
    (fun items _ => ∀ fuel, (∀ x ∈ items, jsonSize x ≤ fuel) →
      (parseRuleListWith (parseRuleF fuel) items).isSome = true)
    ?_ ?_ ?_ ?_ ?_ ?_ j h
  · intro fields items ht hu hstr fuel hsz
    cases fuel with
    | zero =>
      have : 1 ≤ jsonSize (Json.obj fields) := by simp only [jsonSize]; omega
      omega
    | succ f =>
      have hps := (parseStrings_isSome items).mpr hstr
      cases hp : parseStrings items with
      | none => rw [hp] at hps; simp at hps
      | some l => simp [parseRuleF, ht, hu, hp]
  · intro fields q ht hq h0 h100 fuel hsz
    cases fuel with
    | zero =>
      have : 1 ≤ jsonSize (Json.obj fields) := by simp only [jsonSize]; omega
      omega
    | succ f =>
      simp [parseRuleF, ht, hq, h0, h100]
  · intro fields items ht hr hlist ih fuel hsz
    cases fuel with
    | zero =>
      have : 1 ≤ jsonSize (Json.obj fields) := by simp only [jsonSize]; omega
      omega
    | succ f =>
      have harr := getField_size hr
      have hbound : ∀ x ∈ items, jsonSize x ≤ f := by
        intro x hx
        have := mem_items_size hx
        omega
      have hl := ih f hbound
      cases hpl : parseRuleListWith (parseRuleF f) items with
      | none => rw [hpl] at hl; simp at hl
      | some l => simp [parseRuleF, ht, hr, hpl]
  · intro fields items ht hr hlist ih fuel hsz
    cases fuel with
    | zero =>
      have : 1 ≤ jsonSize (Json.obj fields) := by simp only [jsonSize]; omega
      omega
    | succ f =>
      have harr := getField_size hr
      have hbound : ∀ x ∈ items, jsonSize x ≤ f := by
        intro x hx
        have := mem_items_size hx
        omega
      have hl := ih f hbound
      cases hpl : parseRuleListWith (parseRuleF f) items with
      | none => rw [hpl] at hl; simp at hl
      | some l => simp [parseRuleF, ht, hr, hpl]
  · intro fuel _
    simp [parseRuleListWith]
  · intro j0 rest hj0 hrest ihj ihrest fuel hbound
    simp only [parseRuleListWith]
    have h1 := ihj fuel (hbound j0 (List.mem_cons_self j0 rest))
    cases hp1 : parseRuleF fuel j0 with
    | none => rw [hp1] at h1; simp at h1
    | some r =>
      have h2 := ihrest fuel (fun x hx => hbound x (List.mem_cons_of_mem j0 hx))
      cases hp2 : parseRuleListWith (parseRuleF fuel) rest with
      | none => rw [hp2] at h2; simp at h2
      | some rs => simp

/-- The valid conditions are exactly those accepted by `ruleSchema`. -/
theorem validateRule_iff (c : Json) : validateRule c = true ↔ AcceptedCondition c := by
  constructor
  · intro h
    exact parseRuleF_sound (jsonSize c) c h
  · intro h
    exact parseRuleF_complete c h (jsonSize c) (Nat.le_refl _)

/-! ### Percent-rollout monotonicity (claim C8) and vacuous composites (claim C10) -/

/-- The stored JSON condition of a `PERCENT_ROLLOUT` rule with the given
percentage. -/
def percentCondition (p : ℚ) : Json :=
  .obj [("type", .str "PERCENT_ROLLOUT"), ("percentage", .num p)]

def emptyAndCondition : Json := .obj [("type", .str "AND"), ("rules", .arr [])]

def emptyOrCondition : Json := .obj [("type", .str "OR"), ("rules", .arr [])]

theorem parseRule_percentCondition (p : ℚ) (h0 : 0 ≤ p) (h100 : p ≤ 100) :
    parseRule (percentCondition p) = some (Rule.percentRollout p) := by
  unfold parseRule percentCondition
  simp [parseRuleF, getField, jsonSize, jsonFieldsSize, List.find?, h0, h100]

theorem rowMatches_percent (ctx : EvaluationContext) (k : String) (p : ℚ)
    (h0 : 0 ≤ p) (h100 : p ≤ 100) :
    rowMatches ctx k ⟨percentCondition p⟩ =
      decide ((stableHash ctx.userId k : ℚ) < p) := by
  unfold rowMatches
  simp only [parseRule_percentCondition p h0 h100]
  rfl

/-- C8: raising the percentage of a `PERCENT_ROLLOUT` rule from `p` to
`p'` (within `[0, 100]`) never turns an enabled evaluation into disabled:
any flag that evaluates enabled with the rule at `p` still evaluates
enabled with the same rule at `p'`. -/
theorem percentRollout_monotone (ctx : EvaluationContext)
    (key : String) (enabled : Bool) (env : String)
    (pre post : List StoredRule) (p p' : ℚ)
    (hp : p ≤ p') (h0 : 0 ≤ p) (h100 : p' ≤ 100)
    (h : (evaluateFeatureFlag ⟨key, enabled, env, pre ++ ⟨percentCondition p⟩ :: post⟩
        ctx).enabled = true) :
    (evaluateFeatureFlag ⟨key, enabled, env, pre ++ ⟨percentCondition p'⟩ :: post⟩
        ctx).enabled = true := by
  have h0' : (0 : ℚ) ≤ p' := le_trans h0 hp
  have h100' : p ≤ 100 := le_trans hp h100
  rw [evaluateFeatureFlag_enabled_char] at h ⊢
  simp only [Bool.and_eq_true, Bool.or_eq_true] at h ⊢
  obtain ⟨⟨hen, henv⟩, hrules⟩ := h
  refine ⟨⟨hen, henv⟩, ?_⟩
  rcases hrules with hemp | hany
  · exfalso
    cases pre <;> simp [List.isEmpty] at hemp
  · right
    simp only [List.any_append, List.any_cons, Bool.or_eq_true] at hany ⊢
    rcases hany with hpre | hmid | hpost
    · exact Or.inl hpre
    · refine Or.inr (Or.inl ?_)
      rw [rowMatches_percent ctx key p h0 h100'] at hmid
      rw [rowMatches_percent ctx key p' h0' h100]
      have hlt := of_decide_eq_true hmid
      exact decide_eq_true (lt_of_lt_of_le hlt hp)
    · exact Or.inr (Or.inr hpost)

/-- C10: an `AND` rule with no children matches every context (so a flag
whose first rule is an empty `AND` evaluates enabled), an `OR` rule with
no children never matches, and the rule schema accepts both empty
composites. -/
theorem empty_and_or_semantics (ctx : EvaluationContext) (k : String) :
    (∀ t, (evaluateRule ctx k (Rule.and []) t).1 = true) ∧
    (∀ t, (evaluateRule ctx k (Rule.or []) t).1 = false) ∧
    parseRule emptyAndCondition = some (Rule.and []) ∧
    parseRule emptyOrCondition = some (Rule.or []) ∧
    validateRule emptyAndCondition = true ∧
    validateRule emptyOrCondition = true ∧
    (∀ key enabled env rest, enabled = true → env = ctx.environment →
      (evaluateFeatureFlag ⟨key, enabled, env, ⟨emptyAndCondition⟩ :: rest⟩ ctx).enabled
        = true) := by
  refine ⟨fun t => rfl, fun t => rfl, rfl, rfl, rfl, rfl, ?_⟩
  intro key enabled env rest hen henv
  subst hen
  subst henv
  rw [evaluateFeatureFlag_enabled_char]
  have hm : rowMatches ctx key ⟨emptyAndCondition⟩ = true := by
    unfold rowMatches
    rw [show parseRule emptyAndCondition = some (Rule.and []) from rfl]
    rfl
  simp [hm]

/-! ### Relational store and incident domain

The Prisma store is embedded as explicit row lists; each handler becomes
a function from the store (plus request data) to the new store and a
response value.  Ids are opaque strings; timestamps are `Nat`. -/

inductive Status
  | OPEN
  | MITIGATED
  | RESOLVED
deriving DecidableEq

inductive Severity
  | SEV1
  | SEV2
  | SEV3
  | SEV4
deriving DecidableEq

inductive Role
  | ADMIN
  | ENGINEER
  | VIEWER
deriving DecidableEq

inductive EventType
  | NOTE
  | ACTION
  | STATUS_CHANGE
deriving DecidableEq

structure Tenant where
  id : String
  slug : String
  name : String
deriving DecidableEq

structure User where
  id : String
  name : String
  email : String
deriving DecidableEq

structure Membership where
  userId : String
  tenantId : String
  role : Role
deriving DecidableEq

structure Incident where
  id : String
  tenantId : String
  title : String
  severity : Severity
  status : Status
  service : String
  environment : String
  tags : List String
  createdById : String
  assigneeId : Option String
  createdAt : Nat
deriving DecidableEq

/-- A timeline event row; `data` holds the `{from, to}` payload of
`STATUS_CHANGE` events (`from` is null for creation). -/
structure TimelineEventRow where
  incidentId : String
  tenantId : String
  type : EventType
  message : Option String
  data : Option (Option Status × Status)
  createdById : String
deriving DecidableEq

/-- Snapshot payloads the source stores in audit `before_data`/`after_data`. -/
inductive AuditValue
  | incidentRow (i : Incident)
  | statusSnap (s : Status)
  | assigneeSnap (a : Option String)
  | ruleSnap (flagId ruleType : String) (condition : Json) (order : Int)

structure AuditLogRow where
  tenantId : String
  actorId : String
  action : String
  entityType : String
  entityId : String
  beforeData : Option AuditValue
  afterData : Option AuditValue

structure FlagRow where
  id : String
  tenantId : String
  key : String
  name : String
  enabled : Bool
  environment : String
deriving DecidableEq

structure RuleRow where
  flagId : String
  ruleType : String
  condition : Json
  order : Int

structure DB where
  tenants : List Tenant
  users : List User
  memberships : List Membership
  incidents : List Incident
  events : List TimelineEventRow
  audits : List AuditLogRow
  flags : List FlagRow
  rules : List RuleRow

/-- The active tenant context recovered from the session
(lib/tenant.ts `getCurrentTenantContext`). -/
structure TenantContext where
  tenantId : String
  tenantSlug : String
deriving DecidableEq

/-! ### Status transitions (app/actions/incidents.ts and the PATCH route
define the identical table) -/

def VALID_TRANSITIONS : Status → List Status
  | .OPEN => [.MITIGATED, .RESOLVED]
  | .MITIGATED => [.RESOLVED]
  | .RESOLVED => []

def isValidTransition (src dst : Status) : Bool :=
  (VALID_TRANSITIONS src).contains dst

/-- The transition pairs the claim enumerates:
OPEN→MITIGATED, OPEN→RESOLVED, MITIGATED→RESOLVED. -/
def claimAllowedPair (src dst : Status) : Bool :=
  match src, dst with
  | .OPEN, .MITIGATED => true
  | .OPEN, .RESOLVED => true
  | .MITIGATED, .RESOLVED => true
  | _, _ => false

/-! ### Shared store helpers -/

def findTenantBySlug (db : DB) (slug : String) : Option Tenant :=
  db.tenants.find? (fun t => t.slug == slug)

/-- `prisma.incident.findFirst({where: {id, tenantId}})`. -/
def findIncident (db : DB) (tid oid : String) : Option Incident :=
  db.incidents.find? (fun i => i.id == oid && i.tenantId == tid)

/-- `prisma.incident.update({where: {id}})`: id is the primary key. -/
def updateIncidentRows (l : List Incident) (oid : String)
    (f : Incident → Incident) : List Incident :=
  l.map (fun i => if i.id == oid then f i else i)

/-! ### PATCH /api/incidents/{id} (app/api/incidents/[id]/route.ts) -/

inductive PatchResult
  | notFound
  | invalidTransition (valid : List Status)
  | ok (updated : Incident)
deriving DecidableEq

/-- Embedding of the PATCH handler: look the incident up in the active
tenant, validate the transition against `VALID_TRANSITIONS`, then in one
transaction update the row, append the `STATUS_CHANGE` event, the
optional `NOTE`, and the audit row. -/
def patchIncidentStatus (db : DB) (ctx : TenantContext) (userId : String)
    (oid : String) (newStatus : Status) (message : Option String) : DB × PatchResult :=
  match findIncident db ctx.tenantId oid with
  | none => (db, .notFound)
  | some incident =>
    let valid := VALID_TRANSITIONS incident.status
    if !(valid.contains newStatus) then (db, .invalidTransition valid)
    else
      let updated := { incident with status := newStatus }
      let noteEvents : List TimelineEventRow :=
        match message with
        | some m => if m = "" then [] else [⟨oid, ctx.tenantId, .NOTE, some m, none, userId⟩]
        | none => []
      ({ db with
          incidents := updateIncidentRows db.incidents oid (fun i => { i with status := newStatus }),
          events := db.events ++
            [⟨oid, ctx.tenantId, .STATUS_CHANGE, none, some (some incident.status, newStatus),
              userId⟩] ++ noteEvents,
          audits := db.audits ++
            [⟨ctx.tenantId, userId, "UPDATE", "Incident", oid,
              some (.incidentRow incident), some (.incidentRow updated)⟩] },
        .ok updated)

/-! ### Server actions (app/actions/incidents.ts) -/

inductive ActionResult
  | errTenantNotFound
  | errIncidentNotFound
  | errInvalidTransition
  | ok (updated : Incident)
deriving DecidableEq

/-- Embedding of the `changeIncidentStatus` server action. -/
def changeIncidentStatus (db : DB) (tenantSlug : String) (userId : String)
    (incidentId : String) (newStatus : Status) : DB × ActionResult :=
  match findTenantBySlug db tenantSlug with
  | none => (db, .errTenantNotFound)
  | some tenant =>
    match findIncident db tenant.id incidentId with
    | none => (db, .errIncidentNotFound)
    | some existing =>
      if !(isValidTransition existing.status newStatus) then (db, .errInvalidTransition)
      else
        let updated := { existing with status := newStatus }
        ({ db with
            incidents := updateIncidentRows db.incidents incidentId
              (fun i => { i with status := newStatus }),
            events := db.events ++
              [⟨incidentId, tenant.id, .STATUS_CHANGE, none,
                some (some existing.status, newStatus), userId⟩],
            audits := db.audits ++
              [⟨tenant.id, userId, "STATUS_CHANGE", "Incident", incidentId,
                some (.statusSnap existing.status), some (.statusSnap newStatus)⟩] },
          .ok updated)

/-! ### POST /api/incidents/bulk-action, change-status branch
(the bulk-action route) -/

inductive BulkRouteResult
  | noIncidentsFound
  | ok (updatedCount : Nat)
deriving DecidableEq

/-- Embedding of the bulk-action route's `change-status` branch: the
route fetches the tenant's selected incidents, then applies the target
status with `updateMany` and appends timeline and audit rows — with no
transition validation and outside any transaction. -/
def bulkChangeStatusRoute (db : DB) (ctx : TenantContext) (userId : String)
    (incidentIds : List String) (newStatus : Status) (message : Option String) :
    DB × BulkRouteResult :=
  let incidents := db.incidents.filter
    (fun i => incidentIds.contains i.id && i.tenantId == ctx.tenantId)
  if incidents.length = 0 then (db, .noIncidentsFound)
  else
    let db1 := { db with incidents := db.incidents.map (fun i : Incident =>
      if incidentIds.contains i.id && i.tenantId == ctx.tenantId then
        { i with status := newStatus } else i) }
    let db2 := { db1 with events := db1.events ++ incidents.map (fun i : Incident =>
      (⟨i.id, ctx.tenantId, .STATUS_CHANGE, message, some (some i.status, newStatus),
        userId⟩ : TimelineEventRow)) }
    let db3 := { db2 with audits := db2.audits ++ incidents.map (fun i : Incident =>
      (⟨ctx.tenantId, userId, "UPDATE", "Incident", i.id, some (.incidentRow i),
        some (.incidentRow { i with status := newStatus })⟩ : AuditLogRow)) }
    (db3, .ok incidents.length)

inductive BulkActionResult
  | errTenantNotFound
  | errInvalid (count : Nat)
  | ok (updated : Nat)
deriving DecidableEq

/-- Embedding of the `bulkUpdateStatus` server action: every selected
incident is validated against the transition table first; on any
violation the action returns the error before any write; otherwise all
updates, events and audit rows are committed in one transaction. -/
def bulkUpdateStatus (db : DB) (tenantSlug : String) (userId : String)
    (incidentIds : List String) (newStatus : Status) : DB × BulkActionResult :=
  match findTenantBySlug db tenantSlug with
  | none => (db, .errTenantNotFound)
  | some tenant =>
    let incidents := db.incidents.filter
      (fun i => incidentIds.contains i.id && i.tenantId == tenant.id)
    let invalid := incidents.filter (fun i => !(isValidTransition i.status newStatus))
    if invalid.length > 0 then (db, .errInvalid invalid.length)
    else
      ({ db with
          incidents := db.incidents.map (fun i =>
            if incidents.any (fun j => j.id == i.id) then { i with status := newStatus } else i),
          events := db.events ++ incidents.map (fun i =>
            (⟨i.id, tenant.id, .STATUS_CHANGE, none, some (some i.status, newStatus),
              userId⟩ : TimelineEventRow)),
          audits := db.audits ++ incidents.map (fun i =>
            (⟨tenant.id, userId, "BULK_STATUS_CHANGE", "Incident", i.id,
              some (.statusSnap i.status), some (.statusSnap newStatus)⟩ : AuditLogRow)) },
        .ok incidents.length)

/-! ### Incident creation (POST /api/incidents and the `createIncident`
server action).  `failAfter` injects a store failure after that many
statements succeeded (≥ 3 means no failure), to express atomicity. -/

structure CreateInput where
  title : String
  severity : Severity
  service : String
  environment : String
  tags : List String
deriving DecidableEq

def newIncidentRow (tid uid newId : String) (now : Nat) (input : CreateInput) : Incident :=
  ⟨newId, tid, input.title, input.severity, .OPEN, input.service, input.environment,
    input.tags, uid, none, now⟩

/-- Embedding of the POST /api/incidents handler: the three inserts are
issued sequentially and are NOT wrapped in a transaction, so a failure
between statements leaves the earlier writes in place. -/
def createIncidentRoute (db : DB) (ctx : TenantContext) (userId : String)
    (newId : String) (now : Nat) (input : CreateInput) (failAfter : Nat) : DB × Bool :=
  let inc := newIncidentRow ctx.tenantId userId newId now input
  if failAfter = 0 then (db, false)
  else
    let db1 := { db with incidents := db.incidents ++ [inc] }
    if failAfter = 1 then (db1, false)
    else
      let db2 := { db1 with events := db1.events ++
        [⟨newId, ctx.tenantId, .STATUS_CHANGE, none, some (none, .OPEN), userId⟩] }
      if failAfter = 2 then (db2, false)
      else
        ({ db2 with audits := db2.audits ++
          [⟨ctx.tenantId, userId, "CREATE", "Incident", newId, none,
            some (.incidentRow inc)⟩] },
          true)

/-- Embedding of the `createIncident` server action: the same three
inserts inside `prisma.$transaction`, so any failure rolls all of them
back. -/
def createIncidentAction (db : DB) (tenantSlug : String) (userId : String)
    (newId : String) (now : Nat) (input : CreateInput) (failAfter : Nat) : DB × Bool :=
  match findTenantBySlug db tenantSlug with
  | none => (db, false)
  | some tenant =>
    let inc := newIncidentRow tenant.id userId newId now input
    if failAfter < 3 then (db, false)
    else
      ({ db with
          incidents := db.incidents ++ [inc],
          events := db.events ++
            [⟨newId, tenant.id, .STATUS_CHANGE, none, some (none, .OPEN), userId⟩],
          audits := db.audits ++
            [⟨tenant.id, userId, "CREATE", "Incident", newId, none,
              some (.incidentRow inc)⟩] },
        true)

/-! ### GET /api/tenants/{tenantId}/members (team-members listing) -/

structure MemberInfo where
  id : String
  name : String
  email : String
  role : Role
deriving DecidableEq

inductive TeamMembersResult
  | unauthorized
  | notFound
  | ok (members : List MemberInfo)
deriving DecidableEq

def userName (db : DB) (uid : String) : String :=
  ((db.users.find? (fun u => u.id == uid)).map (fun u => u.name)).getD ""

def userEmail (db : DB) (uid : String) : String :=
  ((db.users.find? (fun u => u.id == uid)).map (fun u => u.email)).getD ""

/-- Embedding of the team-members GET handler: after the session check it
resolves the URL's `tenantId` parameter by id or slug and returns that
tenant's memberships joined with user data.  It performs no membership
check for the requesting user and never consults the active tenant
context. -/
def getTeamMembersRoute (db : DB) (sessionUser : Option String)
    (tenantIdParam : String) : TeamMembersResult :=
  match sessionUser with
  | none => .unauthorized
  | some _ =>
    match db.tenants.find? (fun t => t.id == tenantIdParam || t.slug == tenantIdParam) with
    | none => .notFound
    | some tenant =>
      .ok ((db.memberships.filter (fun m => m.tenantId == tenant.id)).map
        (fun m => ⟨m.userId, userName db m.userId, userEmail db m.userId, m.role⟩))

/-! ### POST /api/feature-flags/{id}/rules -/

inductive AddRuleResult
  | flagNotFound
  | badRequest
  | created (flagId ruleType : String) (condition : Json) (order : Int)

def isObj : Json → Bool
  | .obj _ => true
  | _ => false

/-- The `type` property the handler reads off the raw condition
(`(condition as {type}).type`). -/
def typeTag (j : Json) : String :=
  match j with
  | .obj fields =>
    match getField fields "type" with
    | some (.str t) => t
    | _ => ""
  | _ => ""

/-- Embedding of the rule-creation POST handler: resolve the flag in the
active tenant, check the request body is an object, validate it with
`validateRule` (400 on failure, before any write), compute the order
(max existing + 1 when absent), then insert the rule and its audit row in
one transaction. -/
def addRuleRoute (db : DB) (ctx : TenantContext) (userId : String)
    (flagId : String) (condition : Json) (orderParam : Option Int) : DB × AddRuleResult :=
  match db.flags.find? (fun f => f.id == flagId && f.tenantId == ctx.tenantId) with
  | none => (db, .flagNotFound)
  | some _flag =>
    if !(isObj condition) then (db, .badRequest)
    else if !(validateRule condition) then (db, .badRequest)
    else
      let order := match orderParam with
        | some o => o
        | none =>
          ((db.rules.filter (fun r => r.flagId == flagId)).map (fun r => r.order)).foldl
            max (-1) + 1
      let newRule : RuleRow := ⟨flagId, typeTag condition, condition, order⟩
      ({ db with
          rules := db.rules ++ [newRule],
          audits := db.audits ++
            [⟨ctx.tenantId, userId, "ADD_RULE", "FeatureFlag", flagId, none,
              some (.ruleSnap flagId (typeTag condition) condition order)⟩] },
        .created flagId (typeTag condition) condition order)

/-! ### GET /api/incidents pagination (lines 68-93 of the list handler)

`sortedRows` is the store's response to the query (ordered by
`createdAt` descending only — the handler requests no second sort key);
the handler then applies the cursor, fetches `limit + 1` rows, and pops
the extra one. -/
def listIncidentsPage (sortedRows : List Incident) (limitParam : Option Nat)
    (cursor : Option String) : List Incident × Option String × Bool :=
  let limit := min (limitParam.getD 20) 100
  let afterCursor := match cursor with
    | some c => (sortedRows.dropWhile (fun i : Incident => !(i.id == c))).drop 1
    | none => sortedRows
  let fetched := afterCursor.take (limit + 1)
  if fetched.length > limit then
    let page := fetched.dropLast
    (page, (page.getLast?).map (fun i : Incident => i.id), page.length == limit)
  else (fetched, none, fetched.length == limit)

/-! ### Claim C2: single-incident status change -/

theorem transition_table_eq : ∀ s t, isValidTransition s t = claimAllowedPair s t := by
  intro s t
  cases s <;> cases t <;> rfl

/-- C2: for both the PATCH route and the `changeIncidentStatus` server
action, a status change on a stored incident succeeds iff the pair is in
{OPEN→MITIGATED, OPEN→RESOLVED, MITIGATED→RESOLVED}; every other pair is
rejected as an invalid transition with the store (incident row, timeline,
audit log) left unchanged. -/
theorem single_status_change_iff (db : DB) (ctx : TenantContext) (uid oid : String)
    (t : Status) (msg : Option String) (inc : Incident) (slug : String) (tenant : Tenant)
    (hroute : findIncident db ctx.tenantId oid = some inc)
    (hslug : findTenantBySlug db slug = some tenant)
    (haction : findIncident db tenant.id oid = some inc) :
    ((∃ u, (patchIncidentStatus db ctx uid oid t msg).2 = .ok u) ↔
        claimAllowedPair inc.status t = true) ∧
    (claimAllowedPair inc.status t = false →
        (patchIncidentStatus db ctx uid oid t msg).1 = db) ∧
    ((∃ u, (changeIncidentStatus db slug uid oid t).2 = .ok u) ↔
        claimAllowedPair inc.status t = true) ∧
    (claimAllowedPair inc.status t = false →
        (changeIncidentStatus db slug uid oid t).1 = db) := by
  have htab := transition_table_eq inc.status t
  unfold isValidTransition at htab
  refine ⟨?_, ?_, ?_, ?_⟩
  · unfold patchIncidentStatus
    simp only [hroute]
    cases hv : (VALID_TRANSITIONS inc.status).contains t with
    | true =>
      have hca : claimAllowedPair inc.status t = true := htab ▸ hv
      simp only [Bool.not_true, Bool.false_eq_true, if_false]
      exact ⟨fun _ => hca, fun _ => ⟨_, rfl⟩⟩
    | false =>
      have hca : claimAllowedPair inc.status t = false := htab ▸ hv
      simp only [Bool.not_false, if_true]
      constructor
      · intro ⟨u, hu⟩
        simp at hu
      · intro hcon
        rw [hcon] at hca
        exact absurd hca (by simp)
  · intro hfail
    unfold patchIncidentStatus
    have hv : (VALID_TRANSITIONS inc.status).contains t = false := by rw [htab]; exact hfail
    simp only [hroute, hv, Bool.not_false, if_true]
  · unfold changeIncidentStatus isValidTransition
    simp only [hslug, haction]
    cases hv : (VALID_TRANSITIONS inc.status).contains t with
    | true =>
      have hca : claimAllowedPair inc.status t = true := htab ▸ hv
      simp only [Bool.not_true, Bool.false_eq_true, if_false]
      exact ⟨fun _ => hca, fun _ => ⟨_, rfl⟩⟩
    | false =>
      have hca : claimAllowedPair inc.status t = false := htab ▸ hv
      simp only [Bool.not_false, if_true]
      constructor
      · intro ⟨u, hu⟩
        simp at hu
      · intro hcon
        rw [hcon] at hca
        exact absurd hca (by simp)
  · intro hfail
    unfold changeIncidentStatus isValidTransition
    have hv : (VALID_TRANSITIONS inc.status).contains t = false := by rw [htab]; exact hfail
    simp only [hslug, haction, hv, Bool.not_false, if_true]

def tenantAcme : Tenant := ⟨"t1", "acme", "Acme Corp"⟩

def incC2 : Incident :=
  ⟨"i1", "t1", "Shopping Cart Checkout Failure", .SEV1, .OPEN, "Payment Gateway",
    "PROD", [], "u1", none, 0⟩

def dbC2 : DB := ⟨[tenantAcme], [], [], [incC2], [], [], [], []⟩

theorem single_status_change_iff_witness :
    (∃ u, (patchIncidentStatus dbC2 ⟨"t1", "acme"⟩ "u1" "i1" .MITIGATED none).2 = .ok u) ∧
    (patchIncidentStatus dbC2 ⟨"t1", "acme"⟩ "u1" "i1" .OPEN none).1 = dbC2 := by
  have h := single_status_change_iff dbC2 ⟨"t1", "acme"⟩ "u1" "i1" .MITIGATED none incC2
    "acme" tenantAcme rfl rfl rfl
  have h2 := single_status_change_iff dbC2 ⟨"t1", "acme"⟩ "u1" "i1" .OPEN none incC2
    "acme" tenantAcme rfl rfl rfl
  exact ⟨h.1.mpr rfl, h2.2.1 rfl⟩

/-! ### Claim C3: bulk change-status -/

def incOpenB : Incident :=
  ⟨"a", "t1", "Open incident here", .SEV1, .OPEN, "svc", "PROD", [], "u", none, 0⟩

def incMitB : Incident :=
  ⟨"b", "t1", "Mitigated incident", .SEV2, .MITIGATED, "svc", "PROD", [], "u", none, 0⟩

def incResB : Incident :=
  ⟨"c", "t1", "Resolved incident", .SEV3, .RESOLVED, "svc", "PROD", [], "u", none, 0⟩

def dbBulk : DB := ⟨[tenantAcme], [], [], [incOpenB, incMitB, incResB], [], [], [], []⟩

/-- C3: the bulk-action route's change-status branch performs no
transition validation: bulk-changing {OPEN, MITIGATED, RESOLVED} to OPEN
succeeds, rewrites all three rows, and appends three timeline and three
audit rows — where the claim requires the whole operation to fail with an
invalid-transition error and write nothing.  The `bulkUpdateStatus`
server action, on the same input, does behave as the claim states: it
reports all three selected incidents as invalid and leaves the store
untouched. -/
theorem bulk_status_route_unvalidated :
    (bulkChangeStatusRoute dbBulk ⟨"t1", "acme"⟩ "u" ["a", "b", "c"] .OPEN none).2 =
      .ok 3 ∧
    ((bulkChangeStatusRoute dbBulk ⟨"t1", "acme"⟩ "u" ["a", "b", "c"] .OPEN
        none).1.incidents.map (fun i => i.status)) = [.OPEN, .OPEN, .OPEN] ∧
    (bulkChangeStatusRoute dbBulk ⟨"t1", "acme"⟩ "u" ["a", "b", "c"] .OPEN
        none).1.events.length = 3 ∧
    (bulkChangeStatusRoute dbBulk ⟨"t1", "acme"⟩ "u" ["a", "b", "c"] .OPEN
        none).1.audits.length = 3 ∧
    (bulkUpdateStatus dbBulk "acme" "u" ["a", "b", "c"] .OPEN).1 = dbBulk ∧
    (bulkUpdateStatus dbBulk "acme" "u" ["a", "b", "c"] .OPEN).2 = .errInvalid 3 := by
  exact ⟨rfl, rfl, rfl, rfl, rfl, rfl⟩

/-! ### Claim C4: incident creation atomicity -/

def ctxT1 : TenantContext := ⟨"t1", "acme"⟩

def inputC4 : CreateInput :=
  ⟨"Shopping Cart Checkout Failure", .SEV1, "Payment Gateway", "PROD", ["checkout"]⟩

def dbC4 : DB := ⟨[tenantAcme], [], [], [], [], [], [], []⟩

/-- C4: the `createIncident` server action is all-or-nothing — whatever
statement fails, the store is either unchanged or holds exactly the new
OPEN incident, its `{from: null, to: OPEN}` STATUS_CHANGE event, and the
CREATE audit row whose `after_data` is the incident.  The POST
/api/incidents route is NOT: its three inserts run outside a transaction,
and a failure right after the first insert leaves the incident persisted
with no timeline event and no audit row. -/
theorem incident_creation_atomicity :
    (∀ (db : DB) (slug uid nid : String) (now : Nat) (input : CreateInput) (k : Nat)
        (tenant : Tenant), findTenantBySlug db slug = some tenant →
      ((createIncidentAction db slug uid nid now input k).1 = db ∧
        (createIncidentAction db slug uid nid now input k).2 = false) ∨
      ((createIncidentAction db slug uid nid now input k).1 =
        { db with
            incidents := db.incidents ++ [newIncidentRow tenant.id uid nid now input],
            events := db.events ++
              [⟨nid, tenant.id, .STATUS_CHANGE, none, some (none, .OPEN), uid⟩],
            audits := db.audits ++
              [⟨tenant.id, uid, "CREATE", "Incident", nid, none,
                some (.incidentRow (newIncidentRow tenant.id uid nid now input))⟩] } ∧
        (createIncidentAction db slug uid nid now input k).2 = true)) ∧
    ((createIncidentRoute dbC4 ctxT1 "u1" "i1" 0 inputC4 1).1.incidents =
      [newIncidentRow "t1" "u1" "i1" 0 inputC4] ∧
    (createIncidentRoute dbC4 ctxT1 "u1" "i1" 0 inputC4 1).1.events = [] ∧
    (createIncidentRoute dbC4 ctxT1 "u1" "i1" 0 inputC4 1).1.audits = [] ∧
    (createIncidentRoute dbC4 ctxT1 "u1" "i1" 0 inputC4 1).2 = false) := by
  refine ⟨?_, rfl, rfl, rfl, rfl⟩
  intro db slug uid nid now input k tenant hslug
  unfold createIncidentAction
  simp only [hslug]
  by_cases hk : k < 3
  · exact Or.inl ⟨by rw [if_pos hk], by rw [if_pos hk]⟩
  · exact Or.inr ⟨by rw [if_neg hk], by rw [if_neg hk]⟩

theorem incident_creation_atomicity_witness :
    (createIncidentAction dbC4 "acme" "u1" "i1" 0 inputC4 1).1 = dbC4 ∧
    (createIncidentAction dbC4 "acme" "u1" "i1" 0 inputC4 1).2 = false := by
  have h := incident_creation_atomicity.1 dbC4 "acme" "u1" "i1" 0 inputC4 1 tenantAcme rfl
  rcases h with h | h
  · exact h
  · exact absurd h.2 (by decide)

/-! ### Claim C1: tenant isolation and the team-members listing -/

def dbTenants : DB :=
  ⟨[⟨"tA", "acme-corp", "Acme Corp"⟩, ⟨"tB", "techstart-inc", "TechStart Inc"⟩],
   [⟨"u1", "Alice Johnson", "alice@acme.com"⟩,
    ⟨"u3", "Charlie Brown", "charlie@techstart.com"⟩],
   [⟨"u1", "tA", .ADMIN⟩, ⟨"u3", "tB", .ADMIN⟩],
   [], [], [], [], []⟩

/-- C1: the team-members GET handler returns tenant A's member list to an
authenticated principal whose only membership (and active tenant context)
is tenant B — it filters by the URL parameter alone, with no membership
check and no active-tenant filter, so a request with active tenant B
returns rows belonging to tenant A. -/
theorem team_members_cross_tenant_leak :
    getTeamMembersRoute dbTenants (some "u3") "tA" =
      .ok [⟨"u1", "Alice Johnson", "alice@acme.com", .ADMIN⟩] ∧
    dbTenants.memberships.filter (fun m => m.userId == "u3") = [⟨"u3", "tB", .ADMIN⟩] ∧
    ("tA" : String) ≠ "tB" := by
  exact ⟨rfl, rfl, by decide⟩

/-! ### Claim C7: write-time rule validation -/

def dbFlag : DB :=
  ⟨[tenantAcme], [], [], [], [], [],
   [⟨"f1", "t1", "new_checkout_flow", "New Checkout Flow", true, "PROD"⟩], []⟩

/-- A pure `AND` chain of the given nesting depth (each level has exactly
one child). -/
def deepAnd : Nat → Json
  | 0 => emptyAndCondition
  | n + 1 => .obj [("type", .str "AND"), ("rules", .arr [deepAnd n])]

set_option maxRecDepth 100000 in
/-- C7 counterexample: write-time validation accepts an `AND` with zero
children, a non-integer percentage, and a rule nested 21 levels deep —
each of which the claim says must be rejected — and the rule-creation
endpoint persists the empty-`AND` rule. -/
theorem rule_validation_counterexample :
    validateRule emptyAndCondition = true ∧
    validateRule (percentCondition (1 / 2)) = true ∧
    validateRule (deepAnd 20) = true ∧
    (addRuleRoute dbFlag ctxT1 "u1" "f1" emptyAndCondition none).2 =
      .created "f1" "AND" emptyAndCondition 0 ∧
    (addRuleRoute dbFlag ctxT1 "u1" "f1" emptyAndCondition none).1.rules.length = 1 := by
  refine ⟨rfl, (validateRule_iff _).mpr
    (AcceptedCondition.percent rfl rfl (by norm_num) (by norm_num)), by decide, rfl, rfl⟩

/-- C7 (amended): the rule-creation endpoint accepts exactly the
conditions `ruleSchema` parses — a `type` tag among the four variants,
`userIds` an array of strings, `percentage` a number in [0, 100] (not
necessarily an integer), and `AND`/`OR` children each valid (the empty
list allowed), with no depth bound; a condition failing the schema is
rejected with a 400 validation failure and no rule row is created. -/
theorem addRule_validation (db : DB) (ctx : TenantContext) (uid fid : String)
    (c : Json) (ord : Option Int) (flag : FlagRow)
    (hflag : db.flags.find? (fun f => f.id == fid && f.tenantId == ctx.tenantId) =
      some flag) :
    (validateRule c = true ↔ AcceptedCondition c) ∧
    (isObj c = false ∨ validateRule c = false →
      (addRuleRoute db ctx uid fid c ord).1 = db ∧
      (addRuleRoute db ctx uid fid c ord).2 = .badRequest) ∧
    (isObj c = true → validateRule c = true →
      ∃ o, (addRuleRoute db ctx uid fid c ord).1.rules =
        db.rules ++ [⟨fid, typeTag c, c, o⟩]) := by
  refine ⟨validateRule_iff c, ?_, ?_⟩
  · intro hbad
    unfold addRuleRoute
    simp only [hflag]
    rcases hbad with hobj | hval
    · exact ⟨by simp [hobj], by simp [hobj]⟩
    · cases hobj : isObj c with
      | false => exact ⟨by simp [hobj], by simp [hobj]⟩
      | true => exact ⟨by simp [hobj, hval], by simp [hobj, hval]⟩
  · intro hobj hval
    unfold addRuleRoute
    simp only [hflag, hobj, hval, Bool.not_true, Bool.false_eq_true, if_false]
    exact ⟨_, rfl⟩

theorem addRule_validation_witness :
    validateRule Json.null = false ∧
    (addRuleRoute dbFlag ctxT1 "u1" "f1" Json.null none).1 = dbFlag ∧
    (addRuleRoute dbFlag ctxT1 "u1" "f1" Json.null none).2 = .badRequest := by
  have h := addRule_validation dbFlag ctxT1 "u1" "f1" Json.null none
    ⟨"f1", "t1", "new_checkout_flow", "New Checkout Flow", true, "PROD"⟩ rfl
  have hbad := h.2.1 (Or.inl rfl)
  exact ⟨rfl, hbad.1, hbad.2⟩

/-! ### Claim C9: incident list ordering and pagination -/

def incA : Incident :=
  ⟨"a", "t1", "Incident alpha one", .SEV1, .OPEN, "svc", "PROD", [], "u", none, 5⟩

def incB : Incident :=
  ⟨"b", "t1", "Incident bravo two", .SEV1, .OPEN, "svc", "PROD", [], "u", none, 5⟩

/-- C9 counterexample: with exactly one matching row and limit 1 the
handler reports `hasMore = true` although nothing exists beyond the page
(the code tests `length === limit` after popping the extra row), and with
two rows of equal `createdAt` the page keeps the store's tie order
(`"a"` before `"b"`) — the handler requests no `id` descending
tiebreaker, so the claimed deterministic id-descending order does not
hold. -/
theorem listIncidents_counterexample :
    listIncidentsPage [incA] (some 1) none = ([incA], none, true) ∧
    [incA].length ≤ 1 ∧
    (listIncidentsPage [incA, incB] none none).1 = [incA, incB] ∧
    incA.createdAt = incB.createdAt ∧
    incA.id = "a" ∧ incB.id = "b" := by
  exact ⟨rfl, by simp, rfl, rfl, rfl, rfl⟩

/-- C9 (amended): the returned page is the first `limit` rows of the
store's response (which is ordered by `created_at` descending only — any
row order the store picks among equal timestamps is preserved, no `id`
tiebreaker), `limit` is capped at 100 and defaults to 20, `nextCursor`
is non-null exactly when more matching rows exist beyond the page, and
`hasMore` is true exactly when the page holds exactly `limit` rows —
which includes the boundary case where the matches end precisely at the
page boundary and nothing further exists. -/
theorem listIncidentsPage_spec (rows : List Incident) (lp : Option Nat)
    (hpos : 0 < min (lp.getD 20) 100) :
    (listIncidentsPage rows lp none).1 = rows.take (min (lp.getD 20) 100) ∧
    (listIncidentsPage rows lp none).1.length ≤ min (lp.getD 20) 100 ∧
    ((listIncidentsPage rows lp none).2.2 = true ↔
       (listIncidentsPage rows lp none).1.length = min (lp.getD 20) 100) ∧
    ((listIncidentsPage rows lp none).2.1.isSome = true ↔
       min (lp.getD 20) 100 < rows.length) ∧
    (∀ R : Incident → Incident → Prop, List.Pairwise R rows →
       List.Pairwise R (listIncidentsPage rows lp none).1) := by
  unfold listIncidentsPage
  set limit := min (lp.getD 20) 100 with hlimit
  simp only []
  by_cases hmore : limit < rows.length
  · have hflen : (rows.take (limit + 1)).length = limit + 1 := by
      rw [List.length_take]
      omega
    rw [if_pos (by omega : (rows.take (limit + 1)).length > limit)]
    have hdrop : (rows.take (limit + 1)).dropLast = rows.take limit := by
      rw [List.dropLast_eq_take, hflen]
      simp only [Nat.add_sub_cancel, List.take_take]
      rw [min_eq_left (by omega)]
    have hplen : (rows.take limit).length = limit := by
      rw [List.length_take]
      omega
    refine ⟨hdrop, ?_, ?_, ?_, ?_⟩
    · rw [hdrop, hplen]
    · rw [hdrop, hplen]
      simp
    · rw [hdrop]
      have hne : rows.take limit ≠ [] := by
        intro hcon
        rw [hcon] at hplen
        simp at hplen
        omega
      simp [Option.isSome_map', List.getLast?_isSome, hne, hmore]
    · intro R hR
      rw [hdrop]
      exact hR.sublist (List.take_sublist _ _)
  · have hle : rows.length ≤ limit := by omega
    have htake : rows.take (limit + 1) = rows := List.take_of_length_le (by omega)
    have htake2 : rows.take limit = rows := List.take_of_length_le hle
    rw [htake]
    rw [if_neg (by omega : ¬ rows.length > limit)]
    refine ⟨htake2.symm, hle, ?_, ?_, ?_⟩
    · simp
    · simp
      omega
    · intro R hR
      simpa using hR

theorem listIncidentsPage_spec_witness :
    (listIncidentsPage [incA, incB] (some 1) none).1 = [incA] ∧
    (listIncidentsPage [incA, incB] (some 1) none).2.1.isSome = true := by
  have h := listIncidentsPage_spec [incA, incB] (some 1) (by decide)
  refine ⟨?_, h.2.2.2.1.mpr (by decide)⟩
  rw [h.1]
  rfl

/-! ### Concrete witnesses for the evaluator claims -/

def flagC6 : FlagData := ⟨"checkout", true, "PROD", [⟨Json.null⟩, ⟨emptyAndCondition⟩]⟩

def ctxC6 : EvaluationContext := ⟨"user-123", "PROD", none⟩

theorem evaluateFeatureFlag_order_witness :
    TraceEntry.parseFailure 1 ∈ (evaluateFeatureFlag flagC6 ctxC6).trace ∧
    (evaluateFeatureFlag flagC6 ctxC6).enabled = (evaluateFlagSpecOrder flagC6 ctxC6).1 := by
  have h := evaluateFeatureFlag_order flagC6 ctxC6
  refine ⟨h.2.2 0 ⟨Json.null⟩ rfl rfl rfl rfl ?_, h.1⟩
  intro m hm row' hget
  exact absurd hm (Nat.not_lt_zero m)

set_option maxRecDepth 100000 in
theorem percentRollout_monotone_witness :
    (evaluateFeatureFlag ⟨"feature-1", true, "PROD",
        [] ++ ⟨percentCondition 100⟩ :: []⟩ ⟨"user-123", "PROD", none⟩).enabled = true := by
  refine percentRollout_monotone ⟨"user-123", "PROD", none⟩ "feature-1" true "PROD"
    [] [] 50 100 (by norm_num) (by norm_num) (by norm_num) ?_
  decide

theorem empty_and_or_semantics_witness :
    (evaluateFeatureFlag ⟨"k1", true, "PROD", [⟨emptyAndCondition⟩]⟩
      ⟨"u1", "PROD", none⟩).enabled = true :=
  (empty_and_or_semantics ⟨"u1", "PROD", none⟩ "k1").2.2.2.2.2.2 "k1" true "PROD" [] rfl rfl

end NextOps
